import Mathlib

/-!
Verification development for the discord-monitor repository (src/index.ts,
src/config.ts, src/logger.ts).

The TypeScript source is shallowly embedded: pure computations become Lean
functions, stateful operations become explicit state passing, and the
sequential `await`-ordering of one poll tick is reflected as an explicit
event trace.  File contents are modelled as strings; the JSON values the
program reads and writes are modelled by a small JSON AST.  Message ids are
Discord snowflakes (decimal numerals of a 64-bit counter, chronologically
ordered); they are modelled as naturals.
-/

namespace Monitor

/-! ## Timestamps

The program stores ISO-8601 UTC timestamps (`new Date().toISOString()` /
Discord message timestamps) and compares them with `Date.parse`.
`parseDate` models `Date.parse` restricted to the strict
`YYYY-MM-DDTHH:MM:SS.mmmZ` format the program itself writes; the packed
result is strictly monotone in (and injective over) chronological order,
which is all the baseline merge ever uses (it only compares the two parsed
values).  Any other shape is modelled as unparsable (`none`, the `NaN`
outcome of `Date.parse`). -/

def digitVal (c : Char) : Option Nat :=
  if c.isDigit then some (c.toNat - 48) else none

def parseNat2 (a b : Char) : Option Nat := do
  let x ← digitVal a
  let y ← digitVal b
  pure (10 * x + y)

def parseNat4 (a b c d : Char) : Option Nat := do
  let x ← parseNat2 a b
  let y ← parseNat2 c d
  pure (100 * x + y)

def parseNat3 (a b c : Char) : Option Nat := do
  let x ← parseNat2 a b
  let y ← digitVal c
  pure (10 * x + y)

def isLeapYear (y : Nat) : Bool :=
  (y % 4 == 0 && y % 100 != 0) || y % 400 == 0

def daysInMonth (y mo : Nat) : Nat :=
  if mo = 2 then (if isLeapYear y then 29 else 28)
  else if mo = 4 ∨ mo = 6 ∨ mo = 9 ∨ mo = 11 then 30
  else 31

/-- Fields (year, month, day, hour, minute, second, millisecond) of a strict
ISO-8601 UTC timestamp, validated the way `Date.parse` validates ISO input. -/
def parseIsoFields (ts : String) : Option (Nat × Nat × Nat × Nat × Nat × Nat × Nat) :=
  match ts.data with
  | [y1, y2, y3, y4, s1, o1, o2, s2, d1, d2, t1, h1, h2, c1, i1, i2, c2, e1, e2, p1, f1, f2, f3, z1] =>
    if s1 = '-' ∧ s2 = '-' ∧ t1 = 'T' ∧ c1 = ':' ∧ c2 = ':' ∧ p1 = '.' ∧ z1 = 'Z' then do
      let y ← parseNat4 y1 y2 y3 y4
      let mo ← parseNat2 o1 o2
      let d ← parseNat2 d1 d2
      let h ← parseNat2 h1 h2
      let mi ← parseNat2 i1 i2
      let se ← parseNat2 e1 e2
      let ms ← parseNat3 f1 f2 f3
      if 1 ≤ mo ∧ mo ≤ 12 ∧ 1 ≤ d ∧ d ≤ daysInMonth y mo ∧ h ≤ 23 ∧ mi ≤ 59 ∧ se ≤ 59 then
        some (y, mo, d, h, mi, se, ms)
      else none
    else none
  | _ => none

def packDate : Nat × Nat × Nat × Nat × Nat × Nat × Nat → Nat
  | (y, mo, d, h, mi, se, ms) =>
    (((((y * 13 + mo) * 32 + d) * 24 + h) * 60 + mi) * 60 + se) * 1000 + ms

/-- Model of `Date.parse` on the timestamps the program stores (see the
section comment): `none` models the `NaN` result on unparsable input. -/
def parseDate (ts : String) : Option Nat :=
  (parseIsoFields ts).map packDate

def pad2 (n : Nat) : String :=
  if n < 10 then "0" ++ toString n else toString n

/-- Model of `formatTimestampToUTC` (index.ts:282-294): "YYYY-MM-DD HH:mm UTC",
no seconds.  On unparsable input JavaScript yields `NaN` date components
without throwing, producing the literal NaN rendering. -/
def formatTimestampToUTC (iso : String) : String :=
  match parseIsoFields iso with
  | some (y, mo, d, h, mi, _, _) =>
    toString y ++ "-" ++ pad2 mo ++ "-" ++ pad2 d ++ " " ++ pad2 h ++ ":" ++ pad2 mi ++ " UTC"
  | none => "NaN-NaN-NaN NaN:NaN UTC"

/-! ## Baseline store

`config/channels.json` (the primary, "embedded" store held in memory as
`RAW_CONFIG`) is a list of guild entries; `baselines.json` (the legacy
store) is a flat key-to-entry object, modelled as an association list.
A missing or unreadable legacy file is `none`. -/

structure BaselineEntry where
  lastMessageId : Nat
  content : Option String := none
  timestamp : Option String := none
deriving Repr, DecidableEq

structure ChannelEntry where
  channel : String
  channelName : Option String := none
  baseline : Option BaselineEntry := none
deriving Repr, DecidableEq

structure GuildEntry where
  guild : String
  guildName : Option String := none
  guildIcon : Option String := none
  channels : List ChannelEntry := []
deriving Repr, DecidableEq

/-- Model of `baselineKey` (index.ts:755-757). -/
def baselineKey (guildId channelId : String) : String :=
  guildId ++ "_" ++ channelId

def findChannelInList (chs : List ChannelEntry) (channelId : String) : Option ChannelEntry :=
  match chs with
  | [] => none
  | ch :: rest => if ch.channel = channelId then some ch else findChannelInList rest channelId

/-- Model of `findChannelEntryInRaw` (index.ts:763-775): first guild entry
with a matching guild id that also contains the channel wins. -/
def findChannelEntryInRaw (raw : List GuildEntry) (guildId channelId : String) :
    Option ChannelEntry :=
  match raw with
  | [] => none
  | g :: gs =>
    match (if g.guild = guildId then findChannelInList g.channels channelId else none) with
    | some ch => some ch
    | none => findChannelEntryInRaw gs guildId channelId

/-- The embedded (primary-store) read of `getBaseline` (index.ts:783-789). -/
def embeddedBaseline (raw : List GuildEntry) (guildId channelId : String) :
    Option BaselineEntry :=
  (findChannelEntryInRaw raw guildId channelId).bind (fun ch => ch.baseline)

def legacyLookup (store : List (String × BaselineEntry)) (key : String) :
    Option BaselineEntry :=
  match store with
  | [] => none
  | kv :: rest => if kv.fst = key then some kv.snd else legacyLookup rest key

/-- The legacy-store read of `getBaseline` (index.ts:791-803): a missing or
unreadable `baselines.json` (`store = none`) yields no entry. -/
def legacyBaseline (store : Option (List (String × BaselineEntry)))
    (guildId channelId : String) : Option BaselineEntry :=
  store.bind (fun st => legacyLookup st (baselineKey guildId channelId))

/-- Model of the dual-store merge of `getBaseline` (index.ts:805-827):
with both entries present the one with the later `Date.parse`d timestamp is
returned (legacy on ties), a side whose timestamp fails to parse loses to a
side that parses, and legacy is the default when neither parses; with at
most one entry present that entry (or absence) is returned unchanged. -/
def mergeBaselines (embedded legacy : Option BaselineEntry) : Option BaselineEntry :=
  match embedded, legacy with
  | some e, some l =>
    match e.timestamp.bind parseDate, l.timestamp.bind parseDate with
    | some et, some lt => if et ≤ lt then some l else some e
    | none, some _ => some l
    | some _, none => some e
    | none, none => some l
  | some e, none => some e
  | none, some l => some l
  | none, none => none

/-- Model of `getBaseline` (index.ts:781-828). -/
def getBaseline (raw : List GuildEntry) (store : Option (List (String × BaselineEntry)))
    (guildId channelId : String) : Option BaselineEntry :=
  mergeBaselines (embeddedBaseline raw guildId channelId) (legacyBaseline store guildId channelId)

/-! ## setBaseline -/

/-- The channel-level part of the in-memory update of `setBaseline`
(index.ts:856-861): the first matching channel entry gets the new baseline;
a missing channel entry is appended. -/
def setChannelBaseline (chs : List ChannelEntry) (channelId : String)
    (entry : BaselineEntry) : List ChannelEntry :=
  match chs with
  | [] => [{ channel := channelId, baseline := some entry }]
  | ch :: rest =>
    if ch.channel = channelId then { ch with baseline := some entry } :: rest
    else ch :: setChannelBaseline rest channelId entry

/-- The in-memory `RAW_CONFIG` update of `setBaseline` (index.ts:849-861):
the first matching guild entry is updated; a missing guild entry is
appended. -/
def setBaselineRaw (raw : List GuildEntry) (guildId channelId : String)
    (entry : BaselineEntry) : List GuildEntry :=
  match raw with
  | [] => [{ guild := guildId, channels := [{ channel := channelId, baseline := some entry }] }]
  | g :: gs =>
    if g.guild = guildId then { g with channels := setChannelBaseline g.channels channelId entry } :: gs
    else g :: setBaselineRaw gs guildId channelId entry

/-- A durable write performed by `setBaseline`: either the whole grouped
config is written to `config/channels.json` (`persistConfig`,
index.ts:830-841) or the whole updated key-to-entry map is written to the
legacy `baselines.json` (index.ts:870-884). -/
inductive StoreWrite where
  | configWrite (content : List GuildEntry)
  | legacyWrite (content : List (String × BaselineEntry))
deriving Repr, DecidableEq

def setLegacyKey (store : List (String × BaselineEntry)) (key : String)
    (entry : BaselineEntry) : List (String × BaselineEntry) :=
  match store with
  | [] => [(key, entry)]
  | kv :: rest => if kv.fst = key then (key, entry) :: rest else kv :: setLegacyKey rest key entry

/-- Model of `setBaseline` (index.ts:847-894).  Inputs: the two static
startup flags `WRITE_ENRICHED_CONFIG` and `IS_DEV_WATCH`, the in-memory
`RAW_CONFIG`, and the current legacy `baselines.json` contents (`none` when
missing or unreadable, which the code treats as the empty map).  Returns
the new in-memory config together with the list of durable store writes the
call performs.  Note `persistConfig` skips its write entirely in dev-watch
mode (index.ts:832-835). -/
def setBaseline (writeEnriched isDevWatch : Bool) (raw : List GuildEntry)
    (legacyStore : Option (List (String × BaselineEntry)))
    (guildId channelId : String) (entry : BaselineEntry) :
    List GuildEntry × List StoreWrite :=
  let raw2 := setBaselineRaw raw guildId channelId entry
  if writeEnriched then
    (raw2, if isDevWatch then [] else [StoreWrite.configWrite raw2])
  else
    (raw2, [StoreWrite.legacyWrite
      (setLegacyKey (legacyStore.getD []) (baselineKey guildId channelId) entry)])

/-! ## Messages -/

structure DAuthor where
  id : String
  username : Option String := none
deriving Repr, DecidableEq

structure DAttachment where
  id : Option String := none
  url : Option String := none
  proxy_url : Option String := none
  filename : Option String := none
  content_type : Option String := none
deriving Repr, DecidableEq

/-- The simplified message record of the source (`DiscordMessage`,
index.ts:492-502; constructed at index.ts:1019-1036).  Message ids are
snowflakes, modelled as naturals; `content` is modelled as a character list
for the chunking proofs. -/
structure DiscordMessage where
  id : Nat
  author : DAuthor
  content : List Char
  timestamp : String
  attachments : Option (List DAttachment) := none
deriving Repr, DecidableEq

/-! ## Retrying transport

`requestWithRetries` (index.ts:86-118) is modelled over an environment
giving the outcome of each attempt (`outcomes i` is what attempt `i+1`
does) and the jitter drawn before each retry sleep
(`Math.floor(Math.random() * 200)`, so a value in `[0, 200)`).  The result
records how many attempts ran, the sleeps performed between attempts (in
milliseconds, in order), and whether a response was returned (`ok = false`
models the call throwing its final error). -/

inductive ReqOutcome where
  | ok
  | err (transient : Bool)
deriving Repr, DecidableEq

structure ReqResult where
  attempts : Nat
  sleeps : List Nat
  ok : Bool
deriving Repr, DecidableEq

/-- The retry loop of `requestWithRetries` (index.ts:89-115): arguments are
the attempt index made next, the current backoff, and the remaining attempt
budget (`maxAttempts - attempt`).  A non-transient error, or a transient
error on the final attempt, is rethrown without sleeping; otherwise the
loop sleeps `backoff + jitter` and doubles the backoff. -/
def requestLoop (outcomes : Nat → ReqOutcome) (jitters : Nat → Nat) :
    Nat → Nat → Nat → ReqResult
  | _, _, 0 => ⟨0, [], false⟩
  | i, backoff, rem + 1 =>
    match outcomes i with
    | ReqOutcome.ok => ⟨1, [], true⟩
    | ReqOutcome.err transient =>
      if transient = false ∨ rem = 0 then ⟨1, [], false⟩
      else
        let sub := requestLoop outcomes jitters (i + 1) (backoff * 2) rem
        ⟨sub.attempts + 1, (backoff + jitters i) :: sub.sleeps, sub.ok⟩

/-- Model of `requestWithRetries` (index.ts:86-118): `attempt` starts at 0,
`backoff` starts at 500. -/
def requestWithRetries (outcomes : Nat → ReqOutcome) (jitters : Nat → Nat)
    (maxAttempts : Nat) : ReqResult :=
  requestLoop outcomes jitters 0 500 maxAttempts

/-! ## Slack sender -/

/-- Outcome of one webhook delivery attempt inside `sendToSlack`: either the
underlying request resolves, or it rejects carrying an optional HTTP status
and an optional parsed `retry-after` header (`none` also covers a header
whose `Number(...)` is `NaN`; a parsed `0` is falsy in the source and falls
back to the backoff-derived delay). -/
inductive SendOutcome where
  | ok
  | fail (status : Option Nat) (retryAfter : Option Nat)
deriving Repr, DecidableEq

structure SendResult where
  attempts : Nat
  sleeps : List Nat
  delivered : Bool
deriving Repr, DecidableEq

/-- The retry loop of `sendToSlack` (index.ts:423-443).  On HTTP 429 the
loop sleeps `retryAfter * 1000` where `retryAfter` is the parsed header or,
when missing or zero, `Math.ceil(backoff / 1000)`; the backoff is left
unchanged.  On any other failure it sleeps `backoff` and doubles it.  Both
branches sleep before the loop guard is re-checked, so even a final failed
attempt sleeps. -/
def sendLoop (outcomes : Nat → SendOutcome) : Nat → Nat → Nat → SendResult
  | _, _, 0 => ⟨0, [], false⟩
  | i, backoff, rem + 1 =>
    match outcomes i with
    | SendOutcome.ok => ⟨1, [], true⟩
    | SendOutcome.fail status retryAfter =>
      if status = some 429 then
        let ra := match retryAfter with
          | some n => if n = 0 then (backoff + 999) / 1000 else n
          | none => (backoff + 999) / 1000
        let sub := sendLoop outcomes (i + 1) backoff rem
        ⟨sub.attempts + 1, ra * 1000 :: sub.sleeps, sub.delivered⟩
      else
        let sub := sendLoop outcomes (i + 1) (backoff * 2) rem
        ⟨sub.attempts + 1, backoff :: sub.sleeps, sub.delivered⟩

/-- Model of `sendToSlack` (index.ts:413-446): with no webhook configured
the call is a silent no-op; otherwise the loop starts with `attempt = 0`
and `backoff = 1000`. -/
def sendToSlack (webhookSet : Bool) (outcomes : Nat → SendOutcome)
    (maxAttempts : Nat) : SendResult :=
  if webhookSet then sendLoop outcomes 0 1000 maxAttempts else ⟨0, [], false⟩

/-! ## Poll engine

One poll tick (`doPoll`, index.ts:980-1096) is modelled as a function of
the in-memory cursor (`lastMessageId`) and the message batch the API
returned for that tick.  Its side effects, which the source performs
sequentially under `await`, are recorded as an event trace in execution
order: the log append, the `setBaseline` call, and one notification per
message. -/

inductive PollEvent where
  | logAppend (msgs : List DiscordMessage)
  | baselineWrite (entry : BaselineEntry)
  | notify (id : Nat)
deriving Repr, DecidableEq

structure TickResult where
  cursor : Option Nat
  events : List PollEvent
deriving Repr, DecidableEq

/-- Model of one successful `doPoll` tick (index.ts:980-1096).  With no
cursor the tick only establishes a baseline from the single most recent
message, if any (index.ts:993-1007).  With a cursor and a non-empty batch
(returned newest-first by the API) the source reverses to oldest-first,
assigns `lastMessageId` to each processed id in turn (so the final cursor
is the last element of the reversed batch), appends the batch to the log,
persists the baseline of the newest processed message, and then notifies
each message in order (index.ts:1015-1075). -/
def doPoll (cursor : Option Nat) (data : List DiscordMessage) : TickResult :=
  match cursor with
  | none =>
    match data with
    | [] => ⟨none, []⟩
    | d :: _ =>
      ⟨some d.id, [PollEvent.baselineWrite ⟨d.id, some (String.mk d.content), some d.timestamp⟩]⟩
  | some c =>
    match data with
    | [] => ⟨some c, []⟩
    | d :: ds =>
      let ordered := (d :: ds).reverse
      let newest := ordered.getLastD d
      ⟨some newest.id,
        PollEvent.logAppend ordered ::
        PollEvent.baselineWrite ⟨newest.id, some (String.mk newest.content), some newest.timestamp⟩ ::
        ordered.map (fun m => PollEvent.notify m.id)⟩

/-- A sequence of successful poll ticks: each element of `batches` is the
API response of one tick.  Returns the final cursor and the concatenated
event trace. -/
def runPolls (cursor : Option Nat) (batches : List (List DiscordMessage)) :
    Option Nat × List PollEvent :=
  match batches with
  | [] => (cursor, [])
  | b :: bs =>
    let r := doPoll cursor b
    let rest := runPolls r.cursor bs
    (rest.fst, r.events ++ rest.snd)

/-- The platform contract of the `after` query parameter (index.ts:984):
every message of each tick's batch is strictly newer than the cursor the
tick was issued with. -/
def AfterOk : Option Nat → List (List DiscordMessage) → Prop
  | _, [] => True
  | c, b :: bs =>
    (∀ m ∈ b, ∀ x, c = some x → x < m.id) ∧ AfterOk (doPoll c b).cursor bs

/-- Model of the startup baseline establishment of `pollChannel`
(index.ts:921-952): a stored baseline becomes the cursor without any write;
with no stored baseline the latest message of the channel (if any, content
fetched by id) is persisted as the baseline; an empty channel leaves the
cursor unset and writes nothing. -/
def establishBaseline (stored : Option BaselineEntry) (latest : Option DiscordMessage) :
    Option Nat × List PollEvent :=
  match stored with
  | some b => (some b.lastMessageId, [])
  | none =>
    match latest with
    | some m => (some m.id, [PollEvent.baselineWrite ⟨m.id, some (String.mk m.content), some m.timestamp⟩])
    | none => (none, [])

/-! ## Slack Block Kit formatter -/

inductive SlackBlock where
  | context (text : String) (iconUrl : Option String)
  | section (text : List Char)
  | image (imageUrl : String) (altText : String)
  | actions (buttonUrl : String)
deriving Repr, DecidableEq

/-- The Slack text-object size cap used by the formatter (index.ts:320). -/
def SLACK_TEXT_LIMIT : Nat := 3000

/-- Model of the local `splitIntoChunks` (index.ts:322-330): successive raw
character cuts of at most `size` characters.  The source is only ever
invoked with `size = SLACK_TEXT_LIMIT = 3000`; a zero size (on which the
source's `while` loop would never terminate) is mapped to `[]`. -/
def splitIntoChunks (s : List Char) (size : Nat) : List (List Char) :=
  if h : s = [] then []
  else if hz : size = 0 then []
  else s.take size :: splitIntoChunks (s.drop size) size
termination_by s.length
decreasing_by
  simp only [List.length_drop]
  exact Nat.sub_lt (List.length_pos.mpr h) (Nat.pos_of_ne_zero hz)

/-- The literal code-fence marker used to wrap chunks of messages containing
embedded newlines (index.ts:367). -/
def codeFence : List Char := "```".toList

def wrapChunk (hasNewlines : Bool) (chunk : List Char) : List Char :=
  if hasNewlines then codeFence ++ chunk ++ codeFence else chunk

/-- Model of the `imageExt` test (index.ts:378): a case-insensitive check
for a known image-extension suffix. -/
def imageExtTest (s : String) : Bool :=
  [".png", ".jpg", ".jpeg", ".gif", ".webp", ".bmp", ".svg"].any
    (fun ext => s.toLower.endsWith ext)

/-- The attachment-to-image-block loop of `buildSlackBlocks`
(index.ts:379-392): a block is pushed only when a (proxy) url is present
and non-empty and either the url or the filename matches the image-extension
pattern; the alt text falls back to "discord-image" for an absent or empty
filename. -/
def attachmentImageBlocks (atts : List DAttachment) : List SlackBlock :=
  atts.filterMap (fun a =>
    match a.proxy_url.orElse (fun _ => a.url) with
    | none => none
    | some u =>
      if u = "" then none
      else if imageExtTest u || imageExtTest (a.filename.getD "") then
        some (SlackBlock.image u
          (if a.filename.getD "" = "" then "discord-image" else a.filename.getD ""))
      else none)

/-- The display context handed to the formatter (the `cfg` argument of
`buildSlackBlocks`, index.ts:303-306). -/
structure NotifyConfig where
  guildId : String
  channelId : String
  guildName : Option String := none
  guildIcon : Option String := none
  channelName : Option String := none
deriving Repr, DecidableEq

/-- Model of `buildSlackBlocks` (index.ts:303-407): one context block (with
an optional guild-icon thumbnail, animated when the icon hash starts with
"a_"), one section block per 3000-character chunk of the content (each
chunk wrapped in a code fence when the original content contains a
newline), image blocks for image-looking attachments, and a trailing
actions block deep-linking back to the Discord message. -/
def buildSlackBlocks (m : DiscordMessage) (cfg : NotifyConfig) : List SlackBlock :=
  let authorLabel := m.author.username.getD m.author.id
  let discordLink :=
    "https://discord.com/channels/" ++ cfg.guildId ++ "/" ++ cfg.channelId ++ "/" ++ toString m.id
  let headerText :=
    "*New message in* *" ++ cfg.guildName.getD cfg.guildId ++ "/" ++
      cfg.channelName.getD cfg.channelId ++ "*"
  let timestampText := "_" ++ formatTimestampToUTC m.timestamp ++ "_"
  let authorLine := "From: " ++ authorLabel
  let contextText := headerText ++ "\n*" ++ authorLine ++ "* " ++ timestampText
  let contentToDisplay := if m.content.length > 0 then m.content else "(no text)".toList
  let hasNewlines := contentToDisplay.contains '\n'
  let chunks := splitIntoChunks contentToDisplay SLACK_TEXT_LIMIT
  let contextBlock :=
    match cfg.guildIcon with
    | some icon =>
      let ext := if icon.startsWith "a_" then "gif" else "png"
      SlackBlock.context contextText
        (some ("https://cdn.discordapp.com/icons/" ++ cfg.guildId ++ "/" ++ icon ++ "." ++ ext ++ "?size=96"))
    | none => SlackBlock.context contextText none
  contextBlock ::
    (chunks.map (fun chunk => SlackBlock.section (wrapChunk hasNewlines chunk)) ++
      attachmentImageBlocks (m.attachments.getD []) ++
      [SlackBlock.actions discordLink])

/-- The text of a body (section) block, if the block is one. -/
def sectionText? (b : SlackBlock) : Option (List Char) :=
  match b with
  | SlackBlock.section t => some t
  | _ => none

/-- The body (section) blocks of a payload, in order. -/
def sectionTexts (blocks : List SlackBlock) : List (List Char) :=
  blocks.filterMap sectionText?

/-! ## JSON model

`writeMessagesToFile` (index.ts:956-978) reads the whole log file with
`JSON.parse`, concatenates the new records and rewrites the file with
`JSON.stringify(combined, null, 2)`.  JSON values are modelled with a small
AST; number literals are kept as their lexemes (the log schema itself
contains only strings, nulls, arrays and objects, so numeric normalization
is never exercised by the claims). -/

inductive JVal where
  | null : JVal
  | bool (b : Bool) : JVal
  | num (lexeme : String) : JVal
  | str (s : String) : JVal
  | arr (elems : List JVal) : JVal
  | obj (fields : List (String × JVal)) : JVal

/-- JSON string escaping as performed by `JSON.stringify`. -/
def jsonEscapeChar (c : Char) : String :=
  if c = '"' then "\\\""
  else if c = '\\' then "\\\\"
  else if c = '\n' then "\\n"
  else if c = '\r' then "\\r"
  else if c = '\t' then "\\t"
  else if c = '\x08' then "\\b"
  else if c = '\x0c' then "\\f"
  else if c.toNat < 32 then
    "\\u00" ++ String.mk [Nat.digitChar (c.toNat / 16), Nat.digitChar (c.toNat % 16)]
  else String.mk [c]

def jsonQuote (s : String) : String :=
  "\"" ++ String.join (s.data.map jsonEscapeChar) ++ "\""

def indentSpaces (n : Nat) : String := String.mk (List.replicate n ' ')

/-- Model of `JSON.stringify(v, null, 2)` at indentation level `ind`:
empty arrays and objects render inline; non-empty ones render one element
per line with two extra spaces of indentation. -/
def jsonStringifyAux (ind : Nat) : JVal → String
  | JVal.null => "null"
  | JVal.bool true => "true"
  | JVal.bool false => "false"
  | JVal.num lx => lx
  | JVal.str s => jsonQuote s
  | JVal.arr [] => "[]"
  | JVal.arr (x :: xs) =>
    "[\n" ++
      String.intercalate ",\n"
        (((x :: xs).attach).map (fun e => indentSpaces (ind + 2) ++ jsonStringifyAux (ind + 2) e.val)) ++
      "\n" ++ indentSpaces ind ++ "]"
  | JVal.obj [] => "\x7b\x7d"
  | JVal.obj (f :: fs) =>
    "\x7b\n" ++
      String.intercalate ",\n"
        (((f :: fs).attach).map (fun e =>
          indentSpaces (ind + 2) ++ jsonQuote e.val.fst ++ ": " ++ jsonStringifyAux (ind + 2) e.val.snd)) ++
      "\n" ++ indentSpaces ind ++ "\x7d"
termination_by v => sizeOf v
decreasing_by
  · have h1 := List.sizeOf_lt_of_mem e.property
    simp only [JVal.arr.sizeOf_spec]
    omega
  · have h1 := List.sizeOf_lt_of_mem e.property
    have h2 : sizeOf e.val.snd < sizeOf e.val := by
      obtain ⟨a, b⟩ := e.val
      simp [Prod.mk.sizeOf_spec]
    simp only [JVal.obj.sizeOf_spec]
    omega

def jsonStringify (v : JVal) : String := jsonStringifyAux 0 v

def isJsonWs (c : Char) : Bool :=
  c = ' ' || c = '\t' || c = '\n' || c = '\r'

def skipWs : List Char → List Char
  | [] => []
  | c :: rest => if isJsonWs c then skipWs rest else c :: rest

def hexDigitVal (c : Char) : Option Nat :=
  if c.isDigit then some (c.toNat - 48)
  else if 'a' ≤ c ∧ c ≤ 'f' then some (c.toNat - 87)
  else if 'A' ≤ c ∧ c ≤ 'F' then some (c.toNat - 55)
  else none

/-- Body of a JSON string literal after the opening quote: returns the
decoded characters and the input remaining after the closing quote. -/
def parseStringBody : List Char → Option (List Char × List Char)
  | [] => none
  | '"' :: rest => some ([], rest)
  | '\\' :: 'u' :: h1 :: h2 :: h3 :: h4 :: rest => do
    let a ← hexDigitVal h1
    let b ← hexDigitVal h2
    let c ← hexDigitVal h3
    let d ← hexDigitVal h4
    let (tail, rem) ← parseStringBody rest
    let code := ((a * 16 + b) * 16 + c) * 16 + d
    pure (Char.ofNat code :: tail, rem)
  | '\\' :: e :: rest => do
    let c ←
      if e = '"' then some '"'
      else if e = '\\' then some '\\'
      else if e = '/' then some '/'
      else if e = 'n' then some '\n'
      else if e = 'r' then some '\r'
      else if e = 't' then some '\t'
      else if e = 'b' then some '\x08'
      else if e = 'f' then some '\x0c'
      else none
    let (tail, rem) ← parseStringBody rest
    pure (c :: tail, rem)
  | c :: rest => do
    let (tail, rem) ← parseStringBody rest
    pure (c :: tail, rem)

def isNumChar (c : Char) : Bool :=
  c.isDigit || c = '-' || c = '+' || c = '.' || c = 'e' || c = 'E'

def takeNumChars : List Char → List Char × List Char
  | [] => ([], [])
  | c :: rest =>
    if isNumChar c then
      let (lex, rem) := takeNumChars rest
      (c :: lex, rem)
    else ([], c :: rest)

mutual

/-- Fuel-indexed model of `JSON.parse` over the JSON grammar: returns the
parsed value and the remaining input.  Number lexemes are accepted by shape
(leading `-`/digit) and kept verbatim. -/
def parseVal (fuel : Nat) (cs : List Char) : Option (JVal × List Char) :=
  match fuel with
  | 0 => none
  | fuel + 1 =>
    match skipWs cs with
    | 'n' :: 'u' :: 'l' :: 'l' :: rest => some (JVal.null, rest)
    | 't' :: 'r' :: 'u' :: 'e' :: rest => some (JVal.bool true, rest)
    | 'f' :: 'a' :: 'l' :: 's' :: 'e' :: rest => some (JVal.bool false, rest)
    | '"' :: rest => do
      let (s, rem) ← parseStringBody rest
      pure (JVal.str (String.mk s), rem)
    | '[' :: rest =>
      (match skipWs rest with
       | ']' :: rem => some (JVal.arr [], rem)
       | other => do
         let (xs, rem) ← parseElems fuel other
         pure (JVal.arr xs, rem))
    | '\x7b' :: rest =>
      (match skipWs rest with
       | '\x7d' :: rem => some (JVal.obj [], rem)
       | other => do
         let (fs, rem) ← parseFields fuel other
         pure (JVal.obj fs, rem))
    | c :: rest =>
      if c.isDigit || c = '-' then
        let (lex, rem) := takeNumChars (c :: rest)
        some (JVal.num (String.mk lex), rem)
      else none
    | [] => none

/-- Comma-separated array elements up to the closing bracket. -/
def parseElems (fuel : Nat) (cs : List Char) : Option (List JVal × List Char) :=
  match fuel with
  | 0 => none
  | fuel + 1 => do
    let (v, rem) ← parseVal fuel cs
    match skipWs rem with
    | ',' :: more => do
      let (vs, rem2) ← parseElems fuel more
      pure (v :: vs, rem2)
    | ']' :: more => pure ([v], more)
    | _ => none

/-- Comma-separated object fields up to the closing brace. -/
def parseFields (fuel : Nat) (cs : List Char) : Option (List (String × JVal) × List Char) :=
  match fuel with
  | 0 => none
  | fuel + 1 =>
    match skipWs cs with
    | '"' :: rest => do
      let (k, rem) ← parseStringBody rest
      match skipWs rem with
      | ':' :: after => do
        let (v, rem2) ← parseVal fuel after
        match skipWs rem2 with
        | ',' :: more => do
          let (fs, rem3) ← parseFields fuel more
          pure ((String.mk k, v) :: fs, rem3)
        | '\x7d' :: more => pure ([(String.mk k, v)], more)
        | _ => none
      | _ => none
    | _ => none
end

/-- Model of `JSON.parse`: the whole input must be one JSON value with only
trailing whitespace; anything else throws, modelled as `none`. -/
def jsonParse (s : String) : Option JVal :=
  match parseVal (2 * s.length + 4) s.data with
  | some (v, rem) => if skipWs rem = [] then some v else none
  | none => none

/-- Serialization of one simplified message record, as `JSON.stringify`
serializes the object built at index.ts:1019-1036 (an `undefined`
`attachments` field is omitted; a `null` username is kept). -/
def optField (k : String) (v : Option String) : List (String × JVal) :=
  match v with
  | some s => [(k, JVal.str s)]
  | none => []

def attachmentToJson (a : DAttachment) : JVal :=
  JVal.obj (optField "id" a.id ++ optField "url" a.url ++ optField "proxy_url" a.proxy_url ++
    optField "filename" a.filename ++ optField "content_type" a.content_type)

def msgToJson (m : DiscordMessage) : JVal :=
  JVal.obj
    ([("id", JVal.str (toString m.id)),
      ("author", JVal.obj
        [("id", JVal.str m.author.id),
         ("username", match m.author.username with | some u => JVal.str u | none => JVal.null)]),
      ("content", JVal.str (String.mk m.content)),
      ("timestamp", JVal.str m.timestamp)] ++
      (match m.attachments with
       | none => []
       | some atts => [("attachments", JVal.arr (atts.map attachmentToJson))]))

/-- Model of `writeMessagesToFile` (index.ts:956-978): the prior file
contents (`none` when the file does not exist) are parsed; a missing,
unparsable or non-array file is treated as the empty log (the source logs
"malformed - replacing"); the new records are appended and the whole file
is rewritten as `JSON.stringify(combined, null, 2)`.  Returns the new file
contents. -/
def writeMessagesToFile (prior : Option String) (messages : List DiscordMessage) : String :=
  let existing : List JVal :=
    match prior with
    | none => []
    | some raw =>
      match jsonParse raw with
      | some (JVal.arr xs) => xs
      | _ => []
  jsonStringify (JVal.arr (existing ++ messages.map msgToJson))

/-! ## Theorems -/

theorem findChannelInList_setChannelBaseline (chs : List ChannelEntry) (c : String)
    (e : BaselineEntry) :
    (findChannelInList (setChannelBaseline chs c e) c).bind (fun ch => ch.baseline) = some e := by
  induction chs with
  | nil => simp [setChannelBaseline, findChannelInList]
  | cons ch rest ih =>
    by_cases h : ch.channel = c
    · simp [setChannelBaseline, h, findChannelInList]
    · simp [setChannelBaseline, h, findChannelInList, ih]

theorem embeddedBaseline_setBaselineRaw (raw : List GuildEntry) (g c : String)
    (e : BaselineEntry) :
    embeddedBaseline (setBaselineRaw raw g c e) g c = some e := by
  induction raw with
  | nil => simp [setBaselineRaw, embeddedBaseline, findChannelEntryInRaw, findChannelInList]
  | cons gd rest ih =>
    by_cases h : gd.guild = g
    · have hfc := findChannelInList_setChannelBaseline gd.channels c e
      cases hres : findChannelInList (setChannelBaseline gd.channels c e) c with
      | none => rw [hres] at hfc; simp at hfc
      | some ch =>
        rw [hres] at hfc
        simp only [Option.some_bind] at hfc
        simp [setBaselineRaw, h, embeddedBaseline, findChannelEntryInRaw, hres, hfc]
    · simp only [embeddedBaseline] at ih
      simp [setBaselineRaw, h, embeddedBaseline, findChannelEntryInRaw, ih]

/-- C1: with both stores holding an entry for the same target, `getBaseline`
returns the entry with the later parsed timestamp; a side with a parseable
timestamp beats a side without one; when neither side parses, the legacy
entry wins.  In particular primary `(A, T1)` versus legacy `(B, T2)` with
`T2 > T1` yields the legacy entry. -/
theorem getBaseline_merge_policy
    (raw : List GuildEntry) (store : Option (List (String × BaselineEntry)))
    (g c : String) (e l : BaselineEntry)
    (he : embeddedBaseline raw g c = some e)
    (hl : legacyBaseline store g c = some l) :
    (∀ et lt, e.timestamp.bind parseDate = some et → l.timestamp.bind parseDate = some lt →
      (et < lt → getBaseline raw store g c = some l) ∧
      (lt < et → getBaseline raw store g c = some e)) ∧
    (e.timestamp.bind parseDate = none → (∃ lt, l.timestamp.bind parseDate = some lt) →
      getBaseline raw store g c = some l) ∧
    ((∃ et, e.timestamp.bind parseDate = some et) → l.timestamp.bind parseDate = none →
      getBaseline raw store g c = some e) ∧
    (e.timestamp.bind parseDate = none → l.timestamp.bind parseDate = none →
      getBaseline raw store g c = some l) := by
  unfold getBaseline mergeBaselines
  rw [he, hl]
  refine ⟨?_, ?_, ?_, ?_⟩
  · intro et lt het hlt
    refine ⟨fun h => ?_, fun h => ?_⟩
    · simp [het, hlt, Nat.le_of_lt h]
    · simp [het, hlt, Nat.not_le.mpr h]
  · rintro hen ⟨lt, hlt⟩
    simp [hen, hlt]
  · rintro ⟨et, het⟩ hln
    simp [het, hln]
  · intro hen hln
    simp [hen, hln]

def primaryEntryW : BaselineEntry := ⟨1, none, some "2025-01-01T00:00:00.000Z"⟩

def legacyEntryW : BaselineEntry := ⟨2, none, some "2025-01-02T00:00:00.000Z"⟩

def rawConfigW : List GuildEntry :=
  [{ guild := "g", channels := [{ channel := "ch", baseline := some primaryEntryW }] }]

def legacyStoreW : List (String × BaselineEntry) := [("g_ch", legacyEntryW)]

theorem getBaseline_merge_policy_witness :
    getBaseline rawConfigW (some legacyStoreW) "g" "ch" = some legacyEntryW :=
  ((getBaseline_merge_policy rawConfigW (some legacyStoreW) "g" "ch"
      primaryEntryW legacyEntryW rfl rfl).1
    72786211200000 72786297600000 (by decide) (by decide)).1 (by decide)

/-- C10: with exactly one store holding an entry, `getBaseline` returns that
entry unchanged, independent of its timestamp; with neither store holding an
entry, `getBaseline` returns absence. -/
theorem getBaseline_single_store
    (raw : List GuildEntry) (store : Option (List (String × BaselineEntry))) (g c : String) :
    (∀ e, embeddedBaseline raw g c = some e → legacyBaseline store g c = none →
      getBaseline raw store g c = some e) ∧
    (∀ l, embeddedBaseline raw g c = none → legacyBaseline store g c = some l →
      getBaseline raw store g c = some l) ∧
    (embeddedBaseline raw g c = none → legacyBaseline store g c = none →
      getBaseline raw store g c = none) := by
  refine ⟨?_, ?_, ?_⟩ <;> intros <;> unfold getBaseline <;> simp_all [mergeBaselines]

theorem getBaseline_single_store_witness :
    getBaseline rawConfigW none "g" "ch" = some primaryEntryW :=
  (getBaseline_single_store rawConfigW none "g" "ch").1 primaryEntryW rfl rfl

/-- C3 (corrected): the in-memory primary store is updated unconditionally,
and the durable write goes to the legacy store when the write-enriched flag
is unset, to the primary config store when it is set and dev-watch mode is
off, and to no store at all when it is set and dev-watch mode is on
(`persistConfig` skips its write under a dev watcher, index.ts:832-835). -/
theorem setBaseline_write_selection
    (we dev : Bool) (raw : List GuildEntry) (store : Option (List (String × BaselineEntry)))
    (g c : String) (e : BaselineEntry) :
    embeddedBaseline (setBaseline we dev raw store g c e).fst g c = some e ∧
    (we = false → (setBaseline we dev raw store g c e).snd =
      [StoreWrite.legacyWrite (setLegacyKey (store.getD []) (baselineKey g c) e)]) ∧
    (we = true → dev = false → (setBaseline we dev raw store g c e).snd =
      [StoreWrite.configWrite (setBaselineRaw raw g c e)]) ∧
    (we = true → dev = true → (setBaseline we dev raw store g c e).snd = []) := by
  refine ⟨?_, ?_, ?_, ?_⟩
  · cases we <;> cases dev <;> simp [setBaseline, embeddedBaseline_setBaselineRaw]
  · rintro rfl; simp [setBaseline]
  · rintro rfl rfl; simp [setBaseline]
  · rintro rfl rfl; simp [setBaseline]

theorem setBaseline_write_selection_witness :
    (setBaseline false false [] none "g" "ch" primaryEntryW).snd =
      [StoreWrite.legacyWrite [("g_ch", primaryEntryW)]] := by
  have h := (setBaseline_write_selection false false [] none "g" "ch" primaryEntryW).2.1 rfl
  simpa [setLegacyKey, baselineKey] using h

/-- C3 counterexample: with the write-enriched flag set and dev-watch mode
active (both static startup configurations), `setBaseline` performs no
durable write at all, contradicting the claim that the baseline is always
durably written to exactly one of the two physical stores as selected by
the write-enriched flag alone. -/
theorem setBaseline_devwatch_no_durable_write :
    (setBaseline true true [] none "g" "ch" primaryEntryW).snd = [] ∧
    ((setBaseline true true [] none "g" "ch" primaryEntryW).snd).length ≠ 1 := by
  exact ⟨rfl, by decide⟩

theorem doPoll_cursor_cons (c : Nat) (d : DiscordMessage) (ds : List DiscordMessage) :
    (doPoll (some c) (d :: ds)).cursor = some d.id := by
  simp [doPoll, List.reverse_cons, List.getLastD_concat]

/-- C2: across any sequence of successful poll ticks whose batches honor the
platform's `after` semantics (every returned id is strictly newer than the
cursor the tick was issued with), the cursor never decreases: starting from
cursor `c` the run ends at some cursor `y` with `c ≤ y`. -/
theorem cursor_monotone (batches : List (List DiscordMessage)) (c : Nat)
    (h : AfterOk (some c) batches) :
    ∃ y, (runPolls (some c) batches).fst = some y ∧ c ≤ y := by
  induction batches generalizing c with
  | nil => exact ⟨c, rfl, Nat.le_refl c⟩
  | cons b bs ih =>
    obtain ⟨hb, hrest⟩ := h
    cases b with
    | nil =>
      have hcur : (doPoll (some c) ([] : List DiscordMessage)).cursor = some c := rfl
      rw [hcur] at hrest
      obtain ⟨y, hy, hle⟩ := ih c hrest
      refine ⟨y, ?_, hle⟩
      simp only [runPolls]
      rw [hcur]
      exact hy
    | cons d ds =>
      have hcur := doPoll_cursor_cons c d ds
      rw [hcur] at hrest
      have hcd : c < d.id := hb d (List.mem_cons_self d ds) c rfl
      obtain ⟨y, hy, hle⟩ := ih d.id hrest
      refine ⟨y, ?_, Nat.le_trans (Nat.le_of_lt hcd) hle⟩
      simp only [runPolls]
      rw [hcur]
      exact hy

def msgW (i : Nat) : DiscordMessage := ⟨i, ⟨"author", none⟩, [], "ts", none⟩

theorem cursor_monotone_witness :
    ∃ y, (runPolls (some 3) [[msgW 5], []]).fst = some y ∧ 3 ≤ y := by
  refine cursor_monotone [[msgW 5], []] 3 ⟨?_, ?_, trivial⟩
  · intro m hm x hx
    rw [List.mem_singleton] at hm
    subst hm
    injection hx with hx'
    subst hx'
    decide
  · intro m hm
    exact absurd hm (List.not_mem_nil m)

/-- C4: for a tick with an established cursor and a non-empty batch, the
event trace (which records the source's sequential awaited effects in
execution order) is exactly the log append of the batch, then the durable
cursor write, then one notification per message; and, given the platform's
newest-first ordering of the batch, the notifications are issued in
chronological (oldest-first, ascending id) order. -/
theorem doPoll_batch_order (c : Nat) (d : DiscordMessage) (ds : List DiscordMessage)
    (hsorted : ((d :: ds).map DiscordMessage.id).Pairwise (fun a b => b < a)) :
    (doPoll (some c) (d :: ds)).events =
      PollEvent.logAppend ((d :: ds).reverse) ::
        PollEvent.baselineWrite ⟨d.id, some (String.mk d.content), some d.timestamp⟩ ::
        ((d :: ds).reverse.map (fun m => PollEvent.notify m.id)) ∧
    (((d :: ds).reverse.map DiscordMessage.id).Pairwise (fun a b => a < b)) := by
  constructor
  · simp [doPoll, List.reverse_cons, List.getLastD_concat]
  · rw [List.map_reverse, List.pairwise_reverse]
    exact hsorted

theorem doPoll_batch_order_witness :
    (doPoll (some 0) [msgW 2, msgW 1]).events =
      PollEvent.logAppend (([msgW 2, msgW 1] : List DiscordMessage).reverse) ::
        PollEvent.baselineWrite ⟨(msgW 2).id, some (String.mk (msgW 2).content), some (msgW 2).timestamp⟩ ::
        (([msgW 2, msgW 1] : List DiscordMessage).reverse.map (fun m => PollEvent.notify m.id)) ∧
    ((([msgW 2, msgW 1] : List DiscordMessage).reverse.map DiscordMessage.id).Pairwise (fun a b => a < b)) :=
  doPoll_batch_order 0 (msgW 2) [msgW 1] (by decide)

/-- C9: for an empty source channel, the startup baseline establishment and
any number of subsequent zero-result poll ticks leave the target with no
cursor and perform no baseline-store write. -/
theorem empty_channel_stays_uninitialized (n : Nat) :
    establishBaseline none none = (none, []) ∧
    runPolls none (List.replicate n []) = (none, []) := by
  refine ⟨rfl, ?_⟩
  induction n with
  | zero => rfl
  | succ k ih => simp [List.replicate_succ, runPolls, doPoll, ih]


theorem requestLoop_step (o : Nat → ReqOutcome) (j : Nat → Nat) (i b r : Nat)
    (h0 : o i = ReqOutcome.err true) (hr : r ≠ 0) :
    requestLoop o j i b (r + 1) =
      ⟨(requestLoop o j (i + 1) (b * 2) r).attempts + 1,
       (b + j i) :: (requestLoop o j (i + 1) (b * 2) r).sleeps,
       (requestLoop o j (i + 1) (b * 2) r).ok⟩ := by
  conv_lhs => rw [requestLoop]
  simp only [h0]
  rw [if_neg (by simp [hr])]

theorem requestLoop_all_transient (outcomes : Nat → ReqOutcome) (jitters : Nat → Nat) :
    ∀ (rem i backoff : Nat), (∀ k, k < rem → outcomes (i + k) = ReqOutcome.err true) →
    requestLoop outcomes jitters i backoff rem =
      ⟨rem, (List.range (rem - 1)).map (fun k => backoff * 2 ^ k + jitters (i + k)), false⟩ := by
  intro rem
  induction rem with
  | zero => intro i b _; rfl
  | succ r ih =>
    intro i b h
    have h0 : outcomes i = ReqOutcome.err true := by simpa using h 0 (Nat.succ_pos r)
    cases r with
    | zero => simp [requestLoop, h0]
    | succ r' =>
      have hsub := ih (i + 1) (b * 2) (fun k hk => by
        have hh := h (k + 1) (by omega)
        have he : i + (k + 1) = i + 1 + k := by omega
        rwa [he] at hh)
      rw [requestLoop_step outcomes jitters i b (r' + 1) h0 (Nat.succ_ne_zero r')]
      rw [hsub]
      simp only [Nat.succ_sub_one]
      congr 1
      rw [List.range_succ_eq_map]
      simp only [List.map_cons, List.map_map]
      congr 1
      · simp
      · apply List.map_congr_left
        intro k _
        simp only [Function.comp_apply]
        have h1 : b * 2 * 2 ^ k = b * 2 ^ (k + 1) := by ring
        have h2 : i + 1 + k = i + (k + 1) := by omega
        rw [h1, h2]

theorem sum_map_add (l : List Nat) (f g : Nat → Nat) :
    (l.map (fun k => f k + g k)).sum = (l.map f).sum + (l.map g).sum := by
  induction l with
  | nil => rfl
  | cons a t ih => simp [ih]; omega

/-- C5: when every attempt fails with a transient network error,
`requestWithRetries` makes exactly `maxAttempts` attempts and then throws
(`ok = false`), sleeping only between attempts (`maxAttempts - 1` sleeps,
none after the final attempt); each sleep is the doubling base delay plus
that round's jitter, so the total slept delay is at least the sum of the
base exponential backoff schedule and at most that sum plus the jitter
ceiling per retry. -/
theorem requestWithRetries_exhaustion (outcomes : Nat → ReqOutcome) (jitters : Nat → Nat)
    (maxAttempts : Nat)
    (hfail : ∀ k, k < maxAttempts → outcomes k = ReqOutcome.err true)
    (hjit : ∀ k, jitters k < 200) :
    (requestWithRetries outcomes jitters maxAttempts).attempts = maxAttempts ∧
    (requestWithRetries outcomes jitters maxAttempts).ok = false ∧
    (requestWithRetries outcomes jitters maxAttempts).sleeps =
      (List.range (maxAttempts - 1)).map (fun k => 500 * 2 ^ k + jitters k) ∧
    ((List.range (maxAttempts - 1)).map (fun k => 500 * 2 ^ k)).sum ≤
      (requestWithRetries outcomes jitters maxAttempts).sleeps.sum ∧
    (requestWithRetries outcomes jitters maxAttempts).sleeps.sum ≤
      ((List.range (maxAttempts - 1)).map (fun k => 500 * 2 ^ k)).sum + 200 * (maxAttempts - 1) := by
  have hrun := requestLoop_all_transient outcomes jitters maxAttempts 0 500
    (fun k hk => by simpa using hfail k hk)
  unfold requestWithRetries
  rw [hrun]
  have hsleeps : (List.range (maxAttempts - 1)).map (fun k => 500 * 2 ^ k + jitters (0 + k)) =
      (List.range (maxAttempts - 1)).map (fun k => 500 * 2 ^ k + jitters k) := by
    simp
  refine ⟨rfl, rfl, hsleeps, ?_, ?_⟩
  · rw [hsleeps, sum_map_add]
    exact Nat.le_add_right _ _
  · rw [hsleeps, sum_map_add]
    have hb : ((List.range (maxAttempts - 1)).map jitters).sum ≤ 200 * (maxAttempts - 1) := by
      have h1 : ((List.range (maxAttempts - 1)).map jitters).sum ≤
          ((List.range (maxAttempts - 1)).map (fun _ => 200)).sum :=
        List.sum_le_sum (fun k _ => Nat.le_of_lt (hjit k))
      have h2 : ((List.range (maxAttempts - 1)).map (fun _ => (200 : Nat))).sum =
          200 * (maxAttempts - 1) := by
        simp [List.map_const', List.sum_replicate, smul_eq_mul, Nat.mul_comm]
      omega
    omega

def failAlways : Nat → ReqOutcome := fun _ => ReqOutcome.err true

def zeroJitter : Nat → Nat := fun _ => 0

theorem requestWithRetries_exhaustion_witness :
    (requestWithRetries failAlways zeroJitter 3).attempts = 3 ∧
    (requestWithRetries failAlways zeroJitter 3).ok = false ∧
    (requestWithRetries failAlways zeroJitter 3).sleeps =
      (List.range 2).map (fun k => 500 * 2 ^ k + zeroJitter k) := by
  have h := requestWithRetries_exhaustion failAlways zeroJitter 3
    (fun _ _ => rfl) (fun _ => (by decide : (0 : Nat) < 200))
  exact ⟨h.1, h.2.1, h.2.2.1⟩


theorem sendLoop_attempts_le (outcomes : Nat → SendOutcome) :
    ∀ (rem i backoff : Nat), (sendLoop outcomes i backoff rem).attempts ≤ rem := by
  intro rem
  induction rem with
  | zero => intro i b; exact Nat.le_refl 0
  | succ r ih =>
    intro i b
    rw [sendLoop]
    cases outcomes i with
    | ok => exact Nat.succ_le_succ (Nat.zero_le r)
    | fail status retryAfter =>
      by_cases h : status = some 429
      · simp only [h, if_pos rfl]
        exact Nat.succ_le_succ (ih (i + 1) b)
      · simp only [if_neg h]
        exact Nat.succ_le_succ (ih (i + 1) (b * 2))

theorem sendLoop_attempts_pos (outcomes : Nat → SendOutcome) :
    ∀ (rem i backoff : Nat), 1 ≤ rem → 1 ≤ (sendLoop outcomes i backoff rem).attempts := by
  intro rem i b h
  match rem, h with
  | r + 1, _ =>
    rw [sendLoop]
    cases outcomes i with
    | ok => exact Nat.le_refl 1
    | fail status retryAfter =>
      by_cases hs : status = some 429
      · simp only [hs, if_pos rfl]
        exact Nat.succ_le_succ (Nat.zero_le _)
      · simp only [if_neg hs]
        exact Nat.succ_le_succ (Nat.zero_le _)

/-- C8: a webhook attempt answered with HTTP 429 and `retry-after: 2`
sleeps exactly `2 * 1000 = 2000` milliseconds (hence at least 2000ms)
before the next attempt is made, and the rate-limited attempt is counted
against the `maxAttempts` budget: the remaining run gets only
`maxAttempts - 1` further attempts and the total never exceeds
`maxAttempts`. -/
theorem sendToSlack_429_wait (outcomes : Nat → SendOutcome) (maxAttempts : Nat)
    (h0 : outcomes 0 = SendOutcome.fail (some 429) (some 2))
    (hmax : 2 ≤ maxAttempts) :
    (sendToSlack true outcomes maxAttempts).sleeps.head? = some 2000 ∧
    (sendToSlack true outcomes maxAttempts).attempts =
      (sendLoop outcomes 1 1000 (maxAttempts - 1)).attempts + 1 ∧
    2 ≤ (sendToSlack true outcomes maxAttempts).attempts ∧
    (sendToSlack true outcomes maxAttempts).attempts ≤ maxAttempts := by
  obtain ⟨k, rfl⟩ : ∃ k, maxAttempts = k + 2 := ⟨maxAttempts - 2, by omega⟩
  have hstep : sendToSlack true outcomes (k + 2) =
      ⟨(sendLoop outcomes 1 1000 (k + 1)).attempts + 1,
       2000 :: (sendLoop outcomes 1 1000 (k + 1)).sleeps,
       (sendLoop outcomes 1 1000 (k + 1)).delivered⟩ := by
    show sendLoop outcomes 0 1000 (k + 2) = _
    conv_lhs => rw [sendLoop]
    simp [h0]
  rw [hstep]
  have hd : k + 2 - 1 = k + 1 := by omega
  refine ⟨rfl, by rw [hd], ?_, ?_⟩
  · show 2 ≤ (sendLoop outcomes 1 1000 (k + 1)).attempts + 1
    have := sendLoop_attempts_pos outcomes (k + 1) 1 1000 (by omega)
    omega
  · show (sendLoop outcomes 1 1000 (k + 1)).attempts + 1 ≤ k + 2
    have := sendLoop_attempts_le outcomes (k + 1) 1 1000
    omega

def outcomes429W : Nat → SendOutcome :=
  fun i => if i = 0 then SendOutcome.fail (some 429) (some 2) else SendOutcome.ok

theorem sendToSlack_429_wait_witness :
    (sendToSlack true outcomes429W 4).sleeps.head? = some 2000 ∧
    2 ≤ (sendToSlack true outcomes429W 4).attempts ∧
    (sendToSlack true outcomes429W 4).attempts ≤ 4 := by
  have h := sendToSlack_429_wait outcomes429W 4 rfl (by decide)
  exact ⟨h.1, h.2.2.1, h.2.2.2⟩


theorem splitIntoChunks_eq_cons (s : List Char) (size : Nat) (hs : s ≠ []) (hz : size ≠ 0) :
    splitIntoChunks s size = s.take size :: splitIntoChunks (s.drop size) size := by
  rw [splitIntoChunks]
  simp [hs, hz]

theorem splitIntoChunks_len7000 (s : List Char) (h : s.length = 7000) :
    splitIntoChunks s 3000 =
      [s.take 3000, (s.drop 3000).take 3000, (s.drop 3000).drop 3000] := by
  have h1 : s ≠ [] := by intro e; rw [e] at h; simp at h
  rw [splitIntoChunks_eq_cons s 3000 h1 (by decide)]
  have hd1 : (s.drop 3000).length = 4000 := by simp [h]
  have h2 : s.drop 3000 ≠ [] := by intro e; rw [e] at hd1; simp at hd1
  rw [splitIntoChunks_eq_cons _ 3000 h2 (by decide)]
  have hd2 : ((s.drop 3000).drop 3000).length = 1000 := by simp [h]
  have h3 : (s.drop 3000).drop 3000 ≠ [] := by intro e; rw [e] at hd2; simp at hd2
  rw [splitIntoChunks_eq_cons _ 3000 h3 (by decide)]
  have htake : ((s.drop 3000).drop 3000).take 3000 = (s.drop 3000).drop 3000 :=
    List.take_of_length_le (by omega)
  have hdrop : ((s.drop 3000).drop 3000).drop 3000 = [] :=
    List.drop_eq_nil_of_le (by omega)
  rw [htake, hdrop]
  rw [splitIntoChunks]
  simp

theorem sectionTexts_attachmentImageBlocks (atts : List DAttachment) :
    sectionTexts (attachmentImageBlocks atts) = [] := by
  unfold sectionTexts
  rw [List.filterMap_eq_nil_iff]
  intro b hb
  unfold attachmentImageBlocks at hb
  obtain ⟨a, _, hfa⟩ := List.mem_filterMap.mp hb
  rcases hor : a.proxy_url.orElse (fun _ => a.url) with _ | u <;> rw [hor] at hfa <;> dsimp only at hfa
  · exact absurd hfa (by simp)
  · by_cases h1 : u = ""
    · rw [if_pos h1] at hfa
      exact absurd hfa (by simp)
    · rw [if_neg h1] at hfa
      by_cases h2 : (imageExtTest u || imageExtTest (a.filename.getD "")) = true
      · rw [if_pos h2] at hfa
        rw [Option.some_inj] at hfa
        subst hfa
        rfl
      · rw [if_neg h2] at hfa
        exact absurd hfa (by simp)

/-- C6: a message whose content is exactly 7000 characters and contains an
embedded newline is formatted into exactly three body (section) blocks
whose chunks have lengths 3000, 3000 and 1000, appear in order, reassemble
to the original content, and are each wrapped in a literal code fence
because the content contains a newline. -/
theorem buildSlackBlocks_7000 (m : DiscordMessage) (cfg : NotifyConfig)
    (hlen : m.content.length = 7000) (hnl : '\n' ∈ m.content) :
    sectionTexts (buildSlackBlocks m cfg) =
      [codeFence ++ m.content.take 3000 ++ codeFence,
       codeFence ++ (m.content.drop 3000).take 3000 ++ codeFence,
       codeFence ++ (m.content.drop 3000).drop 3000 ++ codeFence] ∧
    (m.content.take 3000).length = 3000 ∧
    ((m.content.drop 3000).take 3000).length = 3000 ∧
    ((m.content.drop 3000).drop 3000).length = 1000 ∧
    m.content.take 3000 ++ ((m.content.drop 3000).take 3000 ++ (m.content.drop 3000).drop 3000) =
      m.content := by
  have hpos : 0 < m.content.length := by omega
  have hc : m.content.contains '\n' = true := by
    exact List.elem_eq_true_of_mem hnl
  have hchunks := splitIntoChunks_len7000 m.content hlen
  refine ⟨?_, ?_, ?_, ?_, ?_⟩
  · unfold buildSlackBlocks sectionTexts
    simp only [if_pos hpos, hc, SLACK_TEXT_LIMIT, hchunks]
    cases hgi : cfg.guildIcon with
    | none =>
      simp only [List.filterMap_cons, List.filterMap_append, List.map_cons, List.map_nil,
        sectionText?, wrapChunk, if_pos rfl]
      have himg := sectionTexts_attachmentImageBlocks (m.attachments.getD [])
      unfold sectionTexts at himg
      simp [himg]
    | some icon =>
      simp only [List.filterMap_cons, List.filterMap_append, List.map_cons, List.map_nil,
        sectionText?, wrapChunk, if_pos rfl]
      have himg := sectionTexts_attachmentImageBlocks (m.attachments.getD [])
      unfold sectionTexts at himg
      simp [himg]
  · simp [List.length_take, hlen]
  · simp [List.length_take, List.length_drop, hlen]
  · simp [List.length_drop, hlen]
  · rw [List.take_append_drop, List.take_append_drop]

def contentW : List Char := '\n' :: List.replicate 6999 'a'

def msgContentW : DiscordMessage := ⟨7, ⟨"author", none⟩, contentW, "ts", none⟩

def cfgW : NotifyConfig := ⟨"g", "ch", none, none, none⟩

theorem buildSlackBlocks_7000_witness :
    sectionTexts (buildSlackBlocks msgContentW cfgW) =
      [codeFence ++ msgContentW.content.take 3000 ++ codeFence,
       codeFence ++ (msgContentW.content.drop 3000).take 3000 ++ codeFence,
       codeFence ++ (msgContentW.content.drop 3000).drop 3000 ++ codeFence] ∧
    (msgContentW.content.take 3000).length = 3000 ∧
    ((msgContentW.content.drop 3000).take 3000).length = 3000 ∧
    ((msgContentW.content.drop 3000).drop 3000).length = 1000 ∧
    msgContentW.content.take 3000 ++
        ((msgContentW.content.drop 3000).take 3000 ++ (msgContentW.content.drop 3000).drop 3000) =
      msgContentW.content :=
  buildSlackBlocks_7000 msgContentW cfgW
    (by show contentW.length = 7000
        rw [contentW, List.length_cons, List.length_replicate])
    (by show '\n' ∈ contentW
        rw [contentW]
        exact List.mem_cons_self _ _)


/-- C7 counterexample: a log file whose existing contents do not parse as a
JSON array (here the literal bytes "not json") is not left byte-identical
by an empty append — the source replaces it with the canonical
serialization of the empty record list (it logs "malformed - replacing"),
so the resulting bytes "[]" differ from the prior bytes. -/
theorem writeMessagesToFile_empty_not_byte_identical :
    writeMessagesToFile (some "not json") [] = "[]" ∧ "not json" ≠ "[]" := by
  constructor
  · have hp : jsonParse "not json" = none := rfl
    unfold writeMessagesToFile
    dsimp only
    rw [hp]
    simp [jsonStringify, jsonStringifyAux]
  · decide

/-- C7 (corrected): an empty append leaves the log file byte-identical
whenever the prior contents parse as a JSON array and are already in the
canonical serialization the writer itself produces (which holds for every
file previously written by `writeMessagesToFile`); a file that does not
parse as a JSON array is instead replaced by the canonical serialization of
the empty log. -/
theorem writeMessagesToFile_empty_idempotent (s : String) (xs : List JVal)
    (hparse : jsonParse s = some (JVal.arr xs))
    (hcanon : jsonStringify (JVal.arr xs) = s) :
    writeMessagesToFile (some s) [] = s := by
  unfold writeMessagesToFile
  dsimp only
  rw [hparse]
  simpa using hcanon

theorem writeMessagesToFile_empty_idempotent_witness :
    writeMessagesToFile (some "[]") [] = "[]" :=
  writeMessagesToFile_empty_idempotent "[]" [] rfl (by simp [jsonStringify, jsonStringifyAux])

end Monitor
